import Mathlib

/-!
Verification of `src/pipelines/epidemiology/ph_authority.py`
(`PhilippinesDataSource.parse_dataframes`), a transform that turns a
line-list table of COVID-19 case records for the Philippines into an
aggregated time-series table at two geographic resolutions.

The pipeline, following the source:
  1. rename input columns (external `table_rename`, modelled by the
     `CaseRaw` record already carrying the renamed column names);
  2. impute `date_new_recovered` / `date_new_deceased` from the report
     date estimate when the removal type matches;
  3. infer `date_new_hospitalized` from the admission flag;
  4. apply the external age-bucketing function and lowercase `sex`;
  5. drop the underscore-prefixed working columns;
  6. `convert_cases_to_time_series` (external `lib/case_line.py`,
     modelled from the spec below);
  7. parse/normalize dates, drop unparseable ones, `fillna(0)`;
  8. duplicate into region-level (`l2`) and province-level (`l3`)
     copies, drop null / placeholder match strings, attach the country
     code, and concatenate.

Machine strings are Lean `String`s; nullable table cells are `Option`;
a step that can raise (pandas `apply` of `lambda x: x.lower()` on a
missing value) returns `Except String`.
-/

/-- String constants used by the source. -/
def recoveredStr : String := "Recovered"

def diedStr : String := "Died"

def yesStr : String := "yes"

def repatriateStr : String := "Repatriate"

def phStr : String := "PH"

def emptyStr : String := ""

def attrErrStr : String := "AttributeError"

instance {ε α : Type} [DecidableEq ε] [DecidableEq α] : DecidableEq (Except ε α) := fun x y =>
  match x, y with
  | Except.ok a, Except.ok b =>
    if h : a = b then Decidable.isTrue (by rw [h]) else Decidable.isFalse (by simp [h])
  | Except.error a, Except.error b =>
    if h : a = b then Decidable.isTrue (by rw [h]) else Decidable.isFalse (by simp [h])
  | Except.ok _, Except.error _ => Decidable.isFalse (by simp)
  | Except.error _, Except.ok _ => Decidable.isFalse (by simp)

/-- ASCII lowercase of one character, the behaviour of Python
`str.lower` on the ASCII data this source handles. -/
def lowerChar (c : Char) : Char :=
  if 'A' ≤ c ∧ c ≤ 'Z' then Char.ofNat (c.toNat + 32) else c

/-- Lowercase of a string, modelling Python `str.lower` /
pandas `.str.lower()` on ASCII data. -/
def lowerStr (s : String) : String :=
  String.mk (s.data.map lowerChar)

/-- Split a character list on the two-character separator `": "`,
scanning left to right without overlap, exactly as Python
`x.split(": ")` does. -/
def splitSeg : List Char → List (List Char)
  | [] => [[]]
  | ':' :: ' ' :: rest => [] :: splitSeg rest
  | c :: rest =>
    match splitSeg rest with
    | s :: ss => (c :: s) :: ss
    | [] => [[c]]

/-- Python `x.split(": ")[-1]`: the substring after the last `": "`
separator (the whole string when the separator does not occur). -/
def splitLast (s : String) : String :=
  String.mk ((splitSeg s.data).getLastD [])

/-- A calendar date with no time-of-day component, the result type of
the safe date parser after `.date()`. -/
structure CalDate where
  year : Nat
  month : Nat
  day : Nat
deriving DecidableEq, Repr

/-- One decimal digit character. -/
def digCh (n : Nat) : Char :=
  Char.ofNat (48 + n % 10)

/-- Modelled from the spec: Python `datetime.date.isoformat`, the
ISO-8601 string `YYYY-MM-DD` with zero padding and no time-of-day. -/
def isoformat (d : CalDate) : String :=
  String.mk
    [digCh (d.year / 1000), digCh (d.year / 100), digCh (d.year / 10), digCh d.year, '-',
     digCh (d.month / 10), digCh d.month, '-',
     digCh (d.day / 10), digCh d.day]

/-- The four event types whose date columns `date_new_<event>` reach
the aggregation step. -/
inductive EventType
  | confirmed
  | deceased
  | recovered
  | hospitalized
deriving DecidableEq, Repr

/-- The fixed list of event-date columns present in the schema. -/
def allEvents : List EventType :=
  [EventType.confirmed, EventType.deceased, EventType.recovered, EventType.hospitalized]

/-- One case record after the `table_rename` step: exactly the columns
kept by the rename (`drop=True`), with the renamed names; every raw
cell may be missing.  `date_new_hospitalized` is the column the source
creates before the admission check (initially all null). -/
structure CaseRaw where
  match_string_province : Option String
  match_string_region : Option String
  date_new_deceased : Option String
  date_new_confirmed : Option String
  date_new_recovered : Option String
  date_new_hospitalized : Option String
  date_estimate : Option String
  hospitalizedFlag : Option String
  prognosis : Option String
  age : Option Nat
  sex : Option String
deriving DecidableEq, Repr

/-- `cases.loc[nan_recovered_mask, "date_new_recovered"] = ..._date_estimate`:
when the recovery date is missing and the removal type is "Recovered",
fill the recovery date with the report date estimate. -/
def imputeRecovered (r : CaseRaw) : CaseRaw :=
  if r.date_new_recovered = none ∧ r.prognosis = some recoveredStr then
    { r with date_new_recovered := r.date_estimate }
  else r

/-- `cases.loc[nan_deceased_mask, "date_new_deceased"] = ..._date_estimate`:
when the death date is missing and the removal type is "Died", fill the
death date with the report date estimate. -/
def imputeDeceased (r : CaseRaw) : CaseRaw :=
  if r.date_new_deceased = none ∧ r.prognosis = some diedStr then
    { r with date_new_deceased := r.date_estimate }
  else r

/-- The DateImputer step of the source: recovered imputation followed
by deceased imputation. -/
def imputeDates (r : CaseRaw) : CaseRaw :=
  imputeDeceased (imputeRecovered r)

/-- `cases["date_new_hospitalized"] = None` followed by the masked
assignment from `date_new_confirmed` where `.str.lower() == "yes"`
(a missing flag compares unequal, exactly as NaN does in pandas). -/
def hospitalize (r : CaseRaw) : CaseRaw :=
  if r.hospitalizedFlag.map lowerStr = some yesStr then
    { r with date_new_hospitalized := r.date_new_confirmed }
  else
    { r with date_new_hospitalized := none }

/-- The per-row mutations applied before the column-typed steps:
imputation then hospitalization inference. -/
def prepare (r : CaseRaw) : CaseRaw :=
  hospitalize (imputeDates r)

/-- A case record after age bucketing, sex normalization and the drop
of the underscore-prefixed working columns. -/
structure Case2 where
  match_string_province : Option String
  match_string_region : Option String
  date_new_deceased : Option String
  date_new_confirmed : Option String
  date_new_recovered : Option String
  date_new_hospitalized : Option String
  age : String
  sex : String
deriving DecidableEq, Repr

/-- `cases.age = cases.age.apply(age_group)`,
`cases.sex = cases.sex.apply(lambda x: x.lower())`, then the drop of
columns starting with `_`.  The external `age_group` function is the
parameter `agef` (§4.3 of the spec: an external pure bucketing
function).  Applying `.lower()` to a missing sex cell raises, exactly
as the Python lambda does on NaN. -/
def finalizeCase (agef : Option Nat → String) (r : CaseRaw) : Except String Case2 :=
  match r.sex with
  | none => Except.error attrErrStr
  | some s =>
    Except.ok
      { match_string_province := r.match_string_province
        match_string_region := r.match_string_region
        date_new_deceased := r.date_new_deceased
        date_new_confirmed := r.date_new_confirmed
        date_new_recovered := r.date_new_recovered
        date_new_hospitalized := r.date_new_hospitalized
        age := agef r.age
        sex := lowerStr s }

/-- The whole per-row portion of the pipeline over the table, stopping
at the first raising row as a pandas `apply` does. -/
def pipelineCases (agef : Option Nat → String) : List CaseRaw → Except String (List Case2)
  | [] => Except.ok []
  | r :: rs =>
    match finalizeCase agef (prepare r), pipelineCases agef rs with
    | Except.ok c, Except.ok cs => Except.ok (c :: cs)
    | Except.error e, _ => Except.error e
    | _, Except.error e => Except.error e

/-- The date column of one event type. -/
def eventDate (e : EventType) (r : Case2) : Option String :=
  match e with
  | EventType.confirmed => r.date_new_confirmed
  | EventType.deceased => r.date_new_deceased
  | EventType.recovered => r.date_new_recovered
  | EventType.hospitalized => r.date_new_hospitalized

/-- The grouping tuple of the aggregation: the raw event date together
with the grouping columns (the two match strings, age band, sex). -/
structure AggKey where
  date : String
  province : String
  region : String
  age : String
  sex : String
deriving DecidableEq, Repr

/-- The grouping tuple contributed by one case row to one event's
series: defined when the event date is non-null and both grouping keys
are present; a case missing a grouping key is excluded entirely from
the aggregation for that event (§4.4 error conditions, the behaviour
of a pandas groupby over keys containing a missing value). -/
def keyOf (e : EventType) (r : Case2) : Option AggKey :=
  match eventDate e r, r.match_string_province, r.match_string_region with
  | some d, some p, some g => some ⟨d, p, g, r.age, r.sex⟩
  | _, _, _ => none

/-- First-occurrence deduplication of a key list. -/
def dedupF : List AggKey → List AggKey
  | [] => []
  | k :: ks => k :: (dedupF ks).filter (fun x => x ≠ k)

/-- The distinct grouping tuples realized by any event's series. -/
def aggKeysList (rows : List Case2) : List AggKey :=
  dedupF (allEvents.flatMap (fun e => rows.filterMap (keyOf e)))

/-- The group size of one grouping tuple in one event's series. -/
def countKey (e : EventType) (k : AggKey) (rows : List Case2) : Nat :=
  List.countP (fun r => decide (keyOf e r = some k)) rows

/-- One cell of the pivoted wide table: null when the combination is
absent from this event's series, the group count otherwise. -/
def pivotCell (e : EventType) (k : AggKey) (rows : List Case2) : Option Nat :=
  let n := countKey e k rows
  if n = 0 then none else some n

/-- One row of the pivoted wide table keyed by one grouping tuple. -/
structure AggRow where
  date : String
  match_string_province : String
  match_string_region : String
  age : String
  sex : String
  new_confirmed : Option Nat
  new_deceased : Option Nat
  new_recovered : Option Nat
  new_hospitalized : Option Nat
deriving DecidableEq, Repr

/-- The wide row built for one grouping tuple. -/
def mkAggRow (rows : List Case2) (k : AggKey) : AggRow :=
  { date := k.date
    match_string_province := k.province
    match_string_region := k.region
    age := k.age
    sex := k.sex
    new_confirmed := pivotCell EventType.confirmed k rows
    new_deceased := pivotCell EventType.deceased k rows
    new_recovered := pivotCell EventType.recovered k rows
    new_hospitalized := pivotCell EventType.hospitalized k rows }

/-- Modelled from the spec: `convert_cases_to_time_series` of
`lib/case_line.py`, which is not part of this tree.  Per §4.4 of the
spec: for each event-date column, the rows with a non-null date are
grouped by (event date, grouping columns) and counted; the per-event
long series are unified and pivoted to the wide columns
`new_<event>`, a combination absent from an event's series leaving a
null cell; a case missing a grouping key is excluded entirely from the
aggregation for that event. -/
def convertCases (rows : List Case2) : List AggRow :=
  (aggKeysList rows).map (mkAggRow rows)

/-- `data.date = data.date.apply(safe_datetime_parse)`,
`data = data[~data.date.isna()]`,
`data.date = data.date.apply(lambda x: x.date().isoformat())`:
parse each date with the safe parser `P` (an external collaborator
returning an optional calendar date), drop rows whose date fails to
parse, and rewrite surviving dates in ISO format. -/
def dateNormalize (P : String → Option CalDate) (rows : List AggRow) : List AggRow :=
  rows.filterMap (fun a => (P a.date).map (fun cd => { a with date := isoformat cd }))

/-- `data = data.fillna(0)` applied to one row: the remaining null
cells are the pivot's count cells, which become zero. -/
def fillnaRow (a : AggRow) : AggRow :=
  { a with
    new_confirmed := some (a.new_confirmed.getD 0)
    new_deceased := some (a.new_deceased.getD 0)
    new_recovered := some (a.new_recovered.getD 0)
    new_hospitalized := some (a.new_hospitalized.getD 0) }

/-- One row of the concatenated output table.  The concatenation of
the `l2` and `l3` copies carries the union of their columns; the copy
lacking a column holds null there. -/
structure OutRow where
  date : String
  match_string : Option String
  match_string_province : Option String
  match_string_region : Option String
  subregion2_code : Option String
  country_code : String
  age : String
  sex : String
  new_confirmed : Option Nat
  new_deceased : Option Nat
  new_recovered : Option Nat
  new_hospitalized : Option Nat
deriving DecidableEq, Repr

/-- The `l2` (region-level) copy of one aggregated row:
`data.rename(columns=...)` keeps the province column, the region
value becomes `match_string` with `x.split(": ")[-1]` applied, and
`subregion2_code` is the null sentinel.  The country code is attached
to every surviving row after the filters; since the filters do not
read it, it is carried from construction here. -/
def l2row (a : AggRow) : OutRow :=
  { date := a.date
    match_string := some (splitLast a.match_string_region)
    match_string_province := some a.match_string_province
    match_string_region := none
    subregion2_code := none
    country_code := phStr
    age := a.age
    sex := a.sex
    new_confirmed := a.new_confirmed
    new_deceased := a.new_deceased
    new_recovered := a.new_recovered
    new_hospitalized := a.new_hospitalized }

/-- The `l3` (province-level) copy of one aggregated row: the province
value becomes `match_string` as-is, the region column is kept, and
`subregion2_code` is the empty-string sentinel. -/
def l3row (a : AggRow) : OutRow :=
  { date := a.date
    match_string := some a.match_string_province
    match_string_province := none
    match_string_region := some a.match_string_region
    subregion2_code := some emptyStr
    country_code := phStr
    age := a.age
    sex := a.sex
    new_confirmed := a.new_confirmed
    new_deceased := a.new_deceased
    new_recovered := a.new_recovered
    new_hospitalized := a.new_hospitalized }

/-- `concat([l2, l3]).dropna(subset=["match_string"])` followed by
`data[data.match_string != "Repatriate"]`. -/
def expand (rows : List AggRow) : List OutRow :=
  (((rows.map l2row) ++ (rows.map l3row)).filter
      (fun o => o.match_string ≠ none)).filter
    (fun o => o.match_string ≠ some repatriateStr)

/-- The aggregated table of the pipeline just before the resolution
expansion: per-row preparation, aggregation, date normalization and
zero fill. -/
def aggregatedTable (P : String → Option CalDate) (agef : Option Nat → String)
    (t : List CaseRaw) : Except String (List AggRow) :=
  match pipelineCases agef t with
  | Except.error e => Except.error e
  | Except.ok cs => Except.ok ((dateNormalize P (convertCases cs)).map fillnaRow)

/-- `PhilippinesDataSource.parse_dataframes`, parametrized by the two
external collaborators: the safe date parser `P` and the age bucketing
function `agef`. -/
def parse_dataframes (P : String → Option CalDate) (agef : Option Nat → String)
    (t : List CaseRaw) : Except String (List OutRow) :=
  match aggregatedTable P agef t with
  | Except.error e => Except.error e
  | Except.ok a => Except.ok (expand a)

/-- The rows of a successful run (the empty table on a raise; used
only to state concrete-input facts compactly). -/
def okRows (x : Except String (List OutRow)) : List OutRow :=
  (x.toOption).getD []

/-- The province-level rows of the output: `subregion2_code` equal to
the empty-string sentinel. -/
def provRows (out : List OutRow) : List OutRow :=
  out.filter (fun o => o.subregion2_code = some emptyStr)

/-- The region-level rows of the output: `subregion2_code` equal to
the null sentinel. -/
def regRows (out : List OutRow) : List OutRow :=
  out.filter (fun o => o.subregion2_code = none)

/-- The `new_<event>` column of an output row. -/
def countField (e : EventType) (o : OutRow) : Option Nat :=
  match e with
  | EventType.confirmed => o.new_confirmed
  | EventType.deceased => o.new_deceased
  | EventType.recovered => o.new_recovered
  | EventType.hospitalized => o.new_hospitalized

/-- The `new_<event>` column of an aggregated row. -/
def aggCount (e : EventType) (a : AggRow) : Option Nat :=
  match e with
  | EventType.confirmed => a.new_confirmed
  | EventType.deceased => a.new_deceased
  | EventType.recovered => a.new_recovered
  | EventType.hospitalized => a.new_hospitalized

/-- The sum of one event's counts over a list of output rows, nulls
counting as zero. -/
def sumNew (e : EventType) (rows : List OutRow) : Nat :=
  (rows.map (fun o => (countField e o).getD 0)).sum

/-- A case row whose `date_new_<event>` is, after the imputation and
inference steps, non-null and successfully parsed by `P`. -/
def parsesAfterImpute (P : String → Option CalDate) (e : EventType) (r : CaseRaw) : Bool :=
  match e with
  | EventType.confirmed => ((prepare r).date_new_confirmed.bind P).isSome
  | EventType.deceased => ((prepare r).date_new_deceased.bind P).isSome
  | EventType.recovered => ((prepare r).date_new_recovered.bind P).isSome
  | EventType.hospitalized => ((prepare r).date_new_hospitalized.bind P).isSome

/-- A case row whose grouping keys survive all key filters: both match
strings present, the province not the disposition placeholder, and the
region not the placeholder after the qualifier split. -/
def goodKeys (r : CaseRaw) : Prop :=
  r.match_string_province ≠ none ∧ r.match_string_region ≠ none ∧
    r.match_string_province ≠ some repatriateStr ∧
    r.match_string_region.map splitLast ≠ some repatriateStr

instance (r : CaseRaw) : Decidable (goodKeys r) := by
  unfold goodKeys; infer_instance

/-- The raw-record date column of one event type. -/
def eventDateRaw (e : EventType) (r : CaseRaw) : Option String :=
  match e with
  | EventType.confirmed => r.date_new_confirmed
  | EventType.deceased => r.date_new_deceased
  | EventType.recovered => r.date_new_recovered
  | EventType.hospitalized => r.date_new_hospitalized

theorem imputeDates_keeps_keys (r : CaseRaw) :
    (imputeDates r).match_string_province = r.match_string_province ∧
      (imputeDates r).match_string_region = r.match_string_region ∧
      (imputeDates r).sex = r.sex ∧ (imputeDates r).age = r.age ∧
      (imputeDates r).hospitalizedFlag = r.hospitalizedFlag ∧
      (imputeDates r).date_new_confirmed = r.date_new_confirmed := by
  unfold imputeDates imputeDeceased imputeRecovered
  split <;> split <;> simp

theorem prepare_keeps_keys (r : CaseRaw) :
    (prepare r).match_string_province = r.match_string_province ∧
      (prepare r).match_string_region = r.match_string_region ∧
      (prepare r).sex = r.sex ∧ (prepare r).age = r.age := by
  unfold prepare hospitalize
  obtain ⟨h1, h2, h3, h4, h5, h6⟩ := imputeDates_keeps_keys r
  split <;> simp [h1, h2, h3, h4]

/-- C5: DateImputer contract — `date_new_recovered` is filled with the
report-date estimate exactly when it is missing and the removal
category equals "Recovered", `date_new_deceased` exactly when it is
missing and the category equals "Died"; a present date is never
overwritten, and no other field is modified by the imputation step. -/
theorem C5_dateImputer_contract (r : CaseRaw) :
    ((imputeDates r).date_new_recovered =
        if r.date_new_recovered = none ∧ r.prognosis = some recoveredStr then r.date_estimate
        else r.date_new_recovered) ∧
      ((imputeDates r).date_new_deceased =
        if r.date_new_deceased = none ∧ r.prognosis = some diedStr then r.date_estimate
        else r.date_new_deceased) ∧
      (imputeDates r).match_string_province = r.match_string_province ∧
      (imputeDates r).match_string_region = r.match_string_region ∧
      (imputeDates r).date_new_confirmed = r.date_new_confirmed ∧
      (imputeDates r).date_new_hospitalized = r.date_new_hospitalized ∧
      (imputeDates r).date_estimate = r.date_estimate ∧
      (imputeDates r).hospitalizedFlag = r.hospitalizedFlag ∧
      (imputeDates r).prognosis = r.prognosis ∧
      (imputeDates r).age = r.age ∧
      (imputeDates r).sex = r.sex := by
  unfold imputeDates imputeDeceased imputeRecovered
  split <;> split <;> simp_all

/-- C6: Imputation idempotence — applying the DateImputer step a
second time to an already-imputed record leaves it unchanged. -/
theorem C6_impute_idempotent (r : CaseRaw) :
    imputeDates (imputeDates r) = imputeDates r := by
  unfold imputeDates imputeDeceased imputeRecovered
  split <;> split <;> simp_all <;> split <;> simp_all

/-- C7: Hospitalization inference — `date_new_hospitalized` is set to
`date_new_confirmed` exactly when the admission flag lowercases to
"yes", and is left null otherwise (including for an absent flag); no
other field is modified by this step. -/
theorem C7_hospitalization_inference (r : CaseRaw) :
    ((hospitalize r).date_new_hospitalized =
        if r.hospitalizedFlag.map lowerStr = some yesStr then r.date_new_confirmed
        else none) ∧
      (hospitalize r).match_string_province = r.match_string_province ∧
      (hospitalize r).match_string_region = r.match_string_region ∧
      (hospitalize r).date_new_deceased = r.date_new_deceased ∧
      (hospitalize r).date_new_confirmed = r.date_new_confirmed ∧
      (hospitalize r).date_new_recovered = r.date_new_recovered ∧
      (hospitalize r).date_estimate = r.date_estimate ∧
      (hospitalize r).hospitalizedFlag = r.hospitalizedFlag ∧
      (hospitalize r).prognosis = r.prognosis ∧
      (hospitalize r).age = r.age ∧
      (hospitalize r).sex = r.sex := by
  unfold hospitalize
  split <;> simp_all

/-- C9: Zero-fill frame condition — the null-replacement step running
after date normalization turns a null count cell into zero and keeps a
present count, and leaves the date, the geographic key columns, the
age band and the sex unchanged. -/
theorem C9_fillna_frame (a : AggRow) :
    (fillnaRow a).date = a.date ∧
      (fillnaRow a).match_string_province = a.match_string_province ∧
      (fillnaRow a).match_string_region = a.match_string_region ∧
      (fillnaRow a).age = a.age ∧
      (fillnaRow a).sex = a.sex ∧
      (fillnaRow a).new_confirmed = some (a.new_confirmed.getD 0) ∧
      (fillnaRow a).new_deceased = some (a.new_deceased.getD 0) ∧
      (fillnaRow a).new_recovered = some (a.new_recovered.getD 0) ∧
      (fillnaRow a).new_hospitalized = some (a.new_hospitalized.getD 0) := by
  unfold fillnaRow
  simp

/-- A concrete safe date parser for witness runs: parses the two dates
of the spec scenario. -/
def Pw : String → Option CalDate := fun s =>
  if s = "2020-04-01" then some ⟨2020, 4, 1⟩
  else if s = "2020-04-10" then some ⟨2020, 4, 10⟩
  else none

/-- A concrete age-bucketing function for witness runs. -/
def agefW : Option Nat → String := fun a =>
  match a with
  | some n => if n ≥ 40 then "40-49" else "0-39"
  | none => "unknown"

/-- The scenario row of §8 of the spec. -/
def scenRow : CaseRaw :=
  { match_string_province := some "Manila"
    match_string_region := some "NCR: National Capital Region"
    date_new_deceased := none
    date_new_confirmed := some "2020-04-01"
    date_new_recovered := none
    date_new_hospitalized := none
    date_estimate := some "2020-04-10"
    hospitalizedFlag := some "Yes"
    prognosis := some recoveredStr
    age := some 45
    sex := some "Female" }

theorem pipelineCases_ok (agef : Option Nat → String) (t : List CaseRaw)
    (h : ∀ r ∈ t, r.sex ≠ none) :
    ∃ cs, pipelineCases agef t = Except.ok cs := by
  induction t with
  | nil => exact ⟨[], rfl⟩
  | cons r rs ih =>
    obtain ⟨cs, hcs⟩ := ih (fun x hx => h x (List.mem_cons_of_mem r hx))
    have hsex : (prepare r).sex = r.sex := (prepare_keeps_keys r).2.2.1
    have hr : r.sex ≠ none := h r (List.mem_cons_self r rs)
    obtain ⟨s, hs⟩ := Option.ne_none_iff_exists'.mp hr
    have hfin : ∃ c, finalizeCase agef (prepare r) = Except.ok c := by
      unfold finalizeCase
      rw [hsex, hs]
      exact ⟨_, rfl⟩
    obtain ⟨c, hfin⟩ := hfin
    refine ⟨c :: cs, ?_⟩
    unfold pipelineCases
    rw [hfin, hcs]

/-- C4 (amended): missing values in individual rows other than `sex` —
absent dates, absent grouping keys, absent admission flags, removal
categories, estimates and ages — never cause `parse_dataframes` to
fail: whenever every row carries a sex value, the transform returns a
result, whatever other cells are missing.  (A missing sex value does
raise; see the counterexample.) -/
theorem C4_missing_values_not_fatal (P : String → Option CalDate)
    (agef : Option Nat → String) (t : List CaseRaw)
    (h : ∀ r ∈ t, r.sex ≠ none) :
    ∃ out, parse_dataframes P agef t = Except.ok out := by
  obtain ⟨cs, hcs⟩ := pipelineCases_ok agef t h
  exact ⟨_, by unfold parse_dataframes aggregatedTable; rw [hcs]⟩

/-- A table exercising every missing cell the amended C4 allows: no
dates, no keys, no flag, no category, no estimate, no age — only a sex
value is present. -/
def c4Table : List CaseRaw :=
  [{ match_string_province := none
     match_string_region := none
     date_new_deceased := none
     date_new_confirmed := none
     date_new_recovered := none
     date_new_hospitalized := none
     date_estimate := none
     hospitalizedFlag := none
     prognosis := none
     age := none
     sex := some "Male" }]

theorem C4_witness :
    ∃ out, parse_dataframes Pw agefW c4Table = Except.ok out :=
  C4_missing_values_not_fatal Pw agefW c4Table (by decide)

/-- C4 counterexample: a single row whose only missing cell is `sex`
makes `parse_dataframes` raise (the pandas `apply` of
`lambda x: x.lower()` hits a missing value), so missing values in
"other per-row fields such as sex" are fatal, contrary to the claim. -/
theorem C4_counterexample :
    parse_dataframes Pw agefW
        [{ match_string_province := some "Manila"
           match_string_region := some "NCR: National Capital Region"
           date_new_deceased := none
           date_new_confirmed := some "2020-04-01"
           date_new_recovered := none
           date_new_hospitalized := none
           date_estimate := none
           hospitalizedFlag := none
           prognosis := none
           age := some 45
           sex := none }] =
      Except.error attrErrStr := rfl

theorem mem_expand {A : List AggRow} {o : OutRow} (h : o ∈ expand A) :
    (∃ a ∈ A, o = l2row a) ∨ ∃ a ∈ A, o = l3row a := by
  unfold expand at h
  have h1 := (List.mem_filter.mp h).1
  have h2 := (List.mem_filter.mp h1).1
  rcases List.mem_append.mp h2 with hm | hm
  · obtain ⟨a, ha, rfl⟩ := List.mem_map.mp hm
    exact Or.inl ⟨a, ha, rfl⟩
  · obtain ⟨a, ha, rfl⟩ := List.mem_map.mp hm
    exact Or.inr ⟨a, ha, rfl⟩

theorem expand_filters {A : List AggRow} {o : OutRow} (h : o ∈ expand A) :
    o.match_string ≠ none ∧ o.match_string ≠ some repatriateStr := by
  unfold expand at h
  have h2 := (List.mem_filter.mp h).2
  have h1 := (List.mem_filter.mp (List.mem_filter.mp h).1).2
  constructor
  · simpa using h1
  · simpa using h2

/-- C3 (amended): every row of the returned table has a `match_string`
that is non-null and different from the placeholder "Repatriate"; the
null and placeholder keys are dropped by the final filters.  Rows
whose key is the *empty string* are, however, kept: `dropna` only
drops nulls and the placeholder filter only compares against
"Repatriate", so the claim's non-empty part fails (see the
counterexample). -/
theorem C3_key_filtering (P : String → Option CalDate) (agef : Option Nat → String)
    (t : List CaseRaw) (out : List OutRow) (o : OutRow)
    (hok : parse_dataframes P agef t = Except.ok out) (ho : o ∈ out) :
    o.match_string ≠ none ∧ o.match_string ≠ some repatriateStr := by
  unfold parse_dataframes at hok
  rcases hA : aggregatedTable P agef t with e | A
  · rw [hA] at hok; exact absurd hok (by simp)
  · rw [hA] at hok
    have : expand A = out := by simpa using hok
    exact expand_filters (this ▸ ho)

/-- A table whose single case has the empty string as its province
name (an empty cell read as an empty string, not as a null). -/
def c3Table : List CaseRaw :=
  [{ scenRow with match_string_province := some emptyStr }]

theorem C3_witness :
    (okRows (parse_dataframes Pw agefW c3Table)).countP
        (fun o => decide (o.match_string = none ∨ o.match_string = some repatriateStr)) = 0 ∧
      okRows (parse_dataframes Pw agefW c3Table) ≠ [] := by
  constructor
  · rw [List.countP_eq_zero]
    intro o ho
    have hok : parse_dataframes Pw agefW c3Table =
        Except.ok (okRows (parse_dataframes Pw agefW c3Table)) := by decide
    have := C3_key_filtering Pw agefW c3Table _ o hok ho
    simp only [decide_eq_true_eq]
    rintro (h | h)
    · exact this.1 h
    · exact this.2 h
  · decide

/-- C3 counterexample: with the empty-string province of `c3Table`,
the returned table contains (exactly two) rows whose `match_string` is
the empty string — rows with an empty grouping key are *not* dropped,
refuting the claim that every returned `match_string` is non-empty. -/
theorem C3_counterexample :
    (okRows (parse_dataframes Pw agefW c3Table)).countP
        (fun o => decide (o.match_string = some emptyStr)) = 2 := by decide

/-- C10: each resolution copy retains the other resolution's key
column.  Every returned row is either a region-level row
(`subregion2_code` null) that keeps the province value in
`match_string_province` while `match_string_region` — renamed away in
that copy — holds null, or a province-level row (`subregion2_code`
empty string) that keeps the raw region value in `match_string_region`
while `match_string_province` holds null; the concatenated table thus
carries these two extra columns beyond the specified output
contract. -/
theorem C10_extra_resolution_columns (P : String → Option CalDate)
    (agef : Option Nat → String) (t : List CaseRaw) (out : List OutRow) (o : OutRow)
    (hok : parse_dataframes P agef t = Except.ok out) (ho : o ∈ out) :
    (o.subregion2_code = none ∧ o.match_string_region = none ∧
        ∃ p, o.match_string_province = some p) ∨
      (o.subregion2_code = some emptyStr ∧ o.match_string_province = none ∧
        ∃ g, o.match_string_region = some g) := by
  unfold parse_dataframes at hok
  rcases hA : aggregatedTable P agef t with e | A
  · rw [hA] at hok; exact absurd hok (by simp)
  · rw [hA] at hok
    have hout : expand A = out := by simpa using hok
    rcases mem_expand (hout ▸ ho) with ⟨a, _, rfl⟩ | ⟨a, _, rfl⟩
    · exact Or.inl ⟨rfl, rfl, a.match_string_province, rfl⟩
    · exact Or.inr ⟨rfl, rfl, a.match_string_region, rfl⟩

theorem C10_witness :
    (okRows (parse_dataframes Pw agefW [scenRow])).countP
        (fun o => decide ((o.subregion2_code = none ∧ o.match_string_region = none ∧
            o.match_string_province ≠ none) ∨
          (o.subregion2_code = some emptyStr ∧ o.match_string_province = none ∧
            o.match_string_region ≠ none))) =
      (okRows (parse_dataframes Pw agefW [scenRow])).length ∧
      (okRows (parse_dataframes Pw agefW [scenRow])).length = 4 := by
  constructor
  · have hok : parse_dataframes Pw agefW [scenRow] =
        Except.ok (okRows (parse_dataframes Pw agefW [scenRow])) := by decide
    rw [List.countP_eq_length]
    intro o ho
    rcases C10_extra_resolution_columns Pw agefW [scenRow] _ o hok ho with
      ⟨h1, h2, p, hp⟩ | ⟨h1, h2, g, hg⟩
    · exact decide_eq_true (Or.inl ⟨h1, h2, by rw [hp]; exact Option.some_ne_none p⟩)
    · exact decide_eq_true (Or.inr ⟨h1, h2, by rw [hg]; exact Option.some_ne_none g⟩)
  · decide

theorem dedupF_nodup (l : List AggKey) : (dedupF l).Nodup := by
  induction l with
  | nil => exact List.nodup_nil
  | cons k ks ih =>
    refine List.nodup_cons.mpr ⟨?_, ih.filter _⟩
    intro hmem
    have h2 := (List.mem_filter.mp hmem).2
    simp at h2

theorem mem_dedupF {x : AggKey} {l : List AggKey} : x ∈ dedupF l ↔ x ∈ l := by
  induction l with
  | nil => simp [dedupF]
  | cons k ks ih =>
    show x ∈ k :: (dedupF ks).filter (fun y => y ≠ k) ↔ x ∈ k :: ks
    constructor
    · intro h
      rcases List.mem_cons.mp h with he | h
      · exact he ▸ List.mem_cons_self k ks
      · exact List.mem_cons_of_mem k (ih.mp (List.mem_filter.mp h).1)
    · intro h
      by_cases hx : x = k
      · exact hx ▸ List.mem_cons_self k ((dedupF ks).filter (fun y => y ≠ k))
      · rcases List.mem_cons.mp h with he | h
        · exact absurd he hx
        · exact List.mem_cons_of_mem k
            (List.mem_filter.mpr ⟨ih.mpr h, by simpa using hx⟩)

theorem sum_map_zero (K : List AggKey) : (K.map (fun _ => (0 : Nat))).sum = 0 := by
  induction K <;> simp_all

theorem sum_map_add (K : List AggKey) (g h : AggKey → Nat) :
    (K.map (fun k => g k + h k)).sum = (K.map g).sum + (K.map h).sum := by
  induction K with
  | nil => simp
  | cons a K ih =>
    simp only [List.map_cons, List.sum_cons, ih]
    omega

theorem sum_ind_zero (K : List AggKey) (k₀ : AggKey) (h : k₀ ∉ K) :
    (K.map (fun k => if k₀ = k then (1 : Nat) else 0)).sum = 0 := by
  induction K with
  | nil => simp
  | cons a K ih =>
    have hne : k₀ ≠ a := fun he => h (he ▸ List.mem_cons_self a K)
    simp only [List.map_cons, List.sum_cons, hne, if_false]
    simpa using ih (fun hm => h (List.mem_cons_of_mem a hm))

theorem sum_ind_one (K : List AggKey) (k₀ : AggKey) (hnd : K.Nodup) (hm : k₀ ∈ K) :
    (K.map (fun k => if k₀ = k then (1 : Nat) else 0)).sum = 1 := by
  induction K with
  | nil => exact absurd hm (List.not_mem_nil k₀)
  | cons a K ih =>
    rcases List.nodup_cons.mp hnd with ⟨hna, hndK⟩
    by_cases he : k₀ = a
    · subst he
      simp only [List.map_cons, List.sum_cons, if_pos rfl]
      simpa using sum_ind_zero K k₀ hna
    · rcases List.mem_cons.mp hm with h | h
      · exact absurd h he
      · simp only [List.map_cons, List.sum_cons, he, if_false]
        simpa using ih hndK h

/-- Partition counting: over a duplicate-free key list `K` containing
every key that is realized by a row and passes `q`, where every key of
`K` passes `q`, the per-key group sizes add up to the number of rows
realizing a `q`-passing key. -/
theorem sum_countKey_eq (e : EventType) (cs : List Case2) (K : List AggKey)
    (q : AggKey → Bool) (hnd : K.Nodup) (hq : ∀ k ∈ K, q k = true)
    (hcov : ∀ r ∈ cs, ∀ k, keyOf e r = some k → q k = true → k ∈ K) :
    (K.map (fun k => countKey e k cs)).sum =
      cs.countP (fun r => match keyOf e r with | some k => q k | none => false) := by
  induction cs with
  | nil => simp [countKey, sum_map_zero]
  | cons r cs ih =>
    have hcov' : ∀ r' ∈ cs, ∀ k, keyOf e r' = some k → q k = true → k ∈ K :=
      fun r' hr' => hcov r' (List.mem_cons_of_mem r hr')
    cases hk : keyOf e r with
    | none =>
      have hcnt0 : ∀ k, countKey e k (r :: cs) = countKey e k cs := by
        intro k
        unfold countKey
        rw [List.countP_cons, hk]
        simp
      have hmap : K.map (fun k => countKey e k (r :: cs)) = K.map (fun k => countKey e k cs) :=
        List.map_congr_left (fun k _ => hcnt0 k)
      rw [List.countP_cons, hmap, ih hcov', hk]
      simp
    | some k₀ =>
      have hcnt1 : ∀ k, countKey e k (r :: cs) =
          countKey e k cs + if k₀ = k then 1 else 0 := by
        intro k
        unfold countKey
        rw [List.countP_cons, hk]
        by_cases hkk : k₀ = k
        · subst hkk; simp
        · simp [hkk]
      have hmap : (K.map (fun k => countKey e k (r :: cs))).sum =
          (K.map (fun k => countKey e k cs)).sum +
            (K.map (fun k => if k₀ = k then (1 : Nat) else 0)).sum := by
        rw [← sum_map_add]
        exact congrArg List.sum (List.map_congr_left (fun k _ => hcnt1 k))
      rw [List.countP_cons, hmap, ih hcov', hk]
      by_cases hq₀ : q k₀ = true
      · rw [sum_ind_one K k₀ hnd (hcov r (List.mem_cons_self r cs) k₀ hk hq₀)]
        simp [hq₀]
      · rw [sum_ind_zero K k₀ (fun hm => hq₀ (hq k₀ hm))]
        simp [hq₀]

/-- The grouping tuples that survive the date-parse filter. -/
def survKeys (P : String → Option CalDate) (cs : List Case2) : List AggKey :=
  (aggKeysList cs).filter (fun k => (P k.date).isSome)

/-- The fully processed aggregated row of one surviving grouping
tuple: counts pivoted, date in ISO format, nulls zero-filled. -/
def normRow (P : String → Option CalDate) (cs : List Case2) (k : AggKey) : AggRow :=
  fillnaRow { mkAggRow cs k with date := isoformat ((P k.date).getD ⟨0, 0, 0⟩) }

theorem norm_map (P : String → Option CalDate) (cs : List Case2) (L : List AggKey) :
    (dateNormalize P (L.map (mkAggRow cs))).map fillnaRow =
      (L.filter (fun k => (P k.date).isSome)).map (normRow P cs) := by
  induction L with
  | nil => rfl
  | cons k L ih =>
    have hd : (mkAggRow cs k).date = k.date := rfl
    unfold dateNormalize at ih ⊢
    rw [List.map_cons, List.filterMap_cons, hd, List.filter_cons]
    cases hp : P k.date with
    | none => simpa using ih
    | some cd =>
      have hnr : normRow P cs k = fillnaRow { mkAggRow cs k with date := isoformat cd } := by
        unfold normRow
        rw [hp]
        rfl
      rw [List.filterMap_map] at ih
      simp [hnr, ih]

theorem aggregated_eq (P : String → Option CalDate) (agef : Option Nat → String)
    (t : List CaseRaw) (cs : List Case2) (hpc : pipelineCases agef t = Except.ok cs) :
    aggregatedTable P agef t = Except.ok ((survKeys P cs).map (normRow P cs)) := by
  unfold aggregatedTable
  rw [hpc]
  show Except.ok ((dateNormalize P (convertCases cs)).map fillnaRow) =
    Except.ok ((survKeys P cs).map (normRow P cs))
  refine congrArg Except.ok ?_
  unfold convertCases survKeys
  exact norm_map P cs (aggKeysList cs)

theorem aggCount_normRow (e : EventType) (P : String → Option CalDate)
    (cs : List Case2) (k : AggKey) :
    aggCount e (normRow P cs k) = some (countKey e k cs) := by
  have hpiv : ∀ e', (pivotCell e' k cs).getD 0 = countKey e' k cs := by
    intro e'
    unfold pivotCell
    by_cases h : countKey e' k cs = 0 <;> simp [h]
  cases e <;> simp [aggCount, normRow, fillnaRow, mkAggRow, hpiv]

theorem normRow_fields (P : String → Option CalDate) (cs : List Case2) (k : AggKey) :
    (normRow P cs k).match_string_province = k.province ∧
      (normRow P cs k).match_string_region = k.region := ⟨rfl, rfl⟩

/-- The processed case produced for a row whose sex cell is present. -/
def mkCase2 (agef : Option Nat → String) (r : CaseRaw) : Case2 :=
  { match_string_province := r.match_string_province
    match_string_region := r.match_string_region
    date_new_deceased := r.date_new_deceased
    date_new_confirmed := r.date_new_confirmed
    date_new_recovered := r.date_new_recovered
    date_new_hospitalized := r.date_new_hospitalized
    age := agef r.age
    sex := lowerStr (r.sex.getD emptyStr) }

theorem finalizeCase_ok_eq (agef : Option Nat → String) (r : CaseRaw) (c : Case2)
    (h : finalizeCase agef r = Except.ok c) : c = mkCase2 agef r := by
  unfold finalizeCase at h
  cases hs : r.sex with
  | none => rw [hs] at h; exact absurd h (by simp)
  | some s =>
    rw [hs] at h
    have := Except.ok.inj h
    rw [← this]
    unfold mkCase2
    rw [hs]
    rfl

theorem pipelineCases_eq (agef : Option Nat → String) (t : List CaseRaw)
    (cs : List Case2) (h : pipelineCases agef t = Except.ok cs) :
    cs = t.map (fun r => mkCase2 agef (prepare r)) := by
  induction t generalizing cs with
  | nil =>
    have : Except.ok ([] : List Case2) = Except.ok cs := h
    rw [← Except.ok.inj this]
    rfl
  | cons r rs ih =>
    unfold pipelineCases at h
    cases hfin : finalizeCase agef (prepare r) with
    | error e => rw [hfin] at h; exact absurd h (by simp)
    | ok c =>
      rw [hfin] at h
      cases hrest : pipelineCases agef rs with
      | error e => rw [hrest] at h; exact absurd h (by simp)
      | ok cs' =>
        rw [hrest] at h
        have hcs : c :: cs' = cs := Except.ok.inj h
        rw [← hcs, List.map_cons, ih cs' hrest, finalizeCase_ok_eq agef (prepare r) c hfin]

theorem mem_allEvents (e : EventType) : e ∈ allEvents := by
  cases e <;> simp [allEvents]

theorem keyOf_mem_aggKeys {e : EventType} {r : Case2} {cs : List Case2} {k : AggKey}
    (hr : r ∈ cs) (hk : keyOf e r = some k) : k ∈ aggKeysList cs := by
  unfold aggKeysList
  rw [mem_dedupF]
  exact List.mem_flatMap.mpr ⟨e, mem_allEvents e, List.mem_filterMap.mpr ⟨r, hr, hk⟩⟩

/-- `parsesAfterImpute` restated through the raw event-date accessor. -/
theorem parsesAfterImpute_eq (P : String → Option CalDate) (e : EventType) (r : CaseRaw) :
    parsesAfterImpute P e r = ((eventDateRaw e (prepare r)).bind P).isSome := by
  cases e <;> rfl

theorem eventDate_mkCase2 (e : EventType) (agef : Option Nat → String) (r : CaseRaw) :
    eventDate e (mkCase2 agef r) = eventDateRaw e r := by
  cases e <;> rfl

theorem expand_split (A : List AggRow) :
    expand A =
      ((A.map l2row).filter (fun o => o.match_string ≠ some repatriateStr)) ++
        ((A.map l3row).filter (fun o => o.match_string ≠ some repatriateStr)) := by
  unfold expand
  rw [List.filter_append, List.filter_append]
  have h2 : (A.map l2row).filter (fun o => o.match_string ≠ none) = A.map l2row := by
    rw [List.filter_eq_self]
    intro o ho
    obtain ⟨a, _, rfl⟩ := List.mem_map.mp ho
    simp [l2row]
  have h3 : (A.map l3row).filter (fun o => o.match_string ≠ none) = A.map l3row := by
    rw [List.filter_eq_self]
    intro o ho
    obtain ⟨a, _, rfl⟩ := List.mem_map.mp ho
    simp [l3row]
  rw [h2, h3]

theorem provRows_expand (A : List AggRow) :
    provRows (expand A) =
      (A.filter (fun a => a.match_string_province ≠ repatriateStr)).map l3row := by
  rw [expand_split]
  unfold provRows
  rw [List.filter_append]
  have h2 : ((A.map l2row).filter (fun o => o.match_string ≠ some repatriateStr)).filter
      (fun o => o.subregion2_code = some emptyStr) = [] := by
    rw [List.filter_eq_nil_iff]
    intro o ho
    obtain ⟨a, _, rfl⟩ := List.mem_map.mp (List.mem_filter.mp ho).1
    simp [l2row]
  have h3 : ((A.map l3row).filter (fun o => o.match_string ≠ some repatriateStr)).filter
      (fun o => o.subregion2_code = some emptyStr) =
      (A.map l3row).filter (fun o => o.match_string ≠ some repatriateStr) := by
    rw [List.filter_eq_self]
    intro o ho
    obtain ⟨a, _, rfl⟩ := List.mem_map.mp (List.mem_filter.mp ho).1
    simp [l3row]
  rw [h2, h3, List.nil_append, List.filter_map]
  refine congrArg (List.map l3row) (List.filter_congr ?_)
  intro a _
  simp [l3row, Function.comp]

theorem regRows_expand (A : List AggRow) :
    regRows (expand A) =
      (A.filter (fun a => splitLast a.match_string_region ≠ repatriateStr)).map l2row := by
  rw [expand_split]
  unfold regRows
  rw [List.filter_append]
  have h3 : ((A.map l3row).filter (fun o => o.match_string ≠ some repatriateStr)).filter
      (fun o => o.subregion2_code = none) = [] := by
    rw [List.filter_eq_nil_iff]
    intro o ho
    obtain ⟨a, _, rfl⟩ := List.mem_map.mp (List.mem_filter.mp ho).1
    simp [l3row]
  have h2 : ((A.map l2row).filter (fun o => o.match_string ≠ some repatriateStr)).filter
      (fun o => o.subregion2_code = none) =
      (A.map l2row).filter (fun o => o.match_string ≠ some repatriateStr) := by
    rw [List.filter_eq_self]
    intro o ho
    obtain ⟨a, _, rfl⟩ := List.mem_map.mp (List.mem_filter.mp ho).1
    simp [l2row]
  rw [h3, h2, List.append_nil, List.filter_map]
  refine congrArg (List.map l2row) (List.filter_congr ?_)
  intro a _
  simp [l2row, Function.comp]

theorem sumNew_map_l3 (e : EventType) (L : List AggRow) :
    sumNew e (L.map l3row) = (L.map (fun a => (aggCount e a).getD 0)).sum := by
  unfold sumNew
  rw [List.map_map]
  refine congrArg List.sum (List.map_congr_left ?_)
  intro a _
  cases e <;> rfl

theorem sumNew_map_l2 (e : EventType) (L : List AggRow) :
    sumNew e (L.map l2row) = (L.map (fun a => (aggCount e a).getD 0)).sum := by
  unfold sumNew
  rw [List.map_map]
  refine congrArg List.sum (List.map_congr_left ?_)
  intro a _
  cases e <;> rfl

theorem sum_filter_eq_sum (q : AggKey → Bool) (g : AggKey → Nat) (K : List AggKey)
    (h : ∀ k ∈ K, q k = false → g k = 0) :
    ((K.filter q).map g).sum = (K.map g).sum := by
  induction K with
  | nil => rfl
  | cons a K ih =>
    have ih' := ih (fun k hk => h k (List.mem_cons_of_mem a hk))
    rw [List.filter_cons]
    by_cases ha : q a = true
    · simp only [ha, if_pos trivial, List.map_cons, List.sum_cons, ih']
    · have hza : g a = 0 := h a (List.mem_cons_self a K) (Bool.not_eq_true (q a) ▸ ha)
      simp only [ha, Bool.false_eq_true, if_false, List.map_cons, List.sum_cons, hza, ih',
        Nat.zero_add]

theorem pred_eq_parses (P : String → Option CalDate) (e : EventType)
    (agef : Option Nat → String) (r : CaseRaw)
    (hgood : parsesAfterImpute P e r = true → goodKeys r) :
    (match keyOf e (mkCase2 agef (prepare r)) with
      | some k => (P k.date).isSome
      | none => false) = parsesAfterImpute P e r := by
  rw [parsesAfterImpute_eq]
  unfold keyOf
  rw [eventDate_mkCase2]
  cases hd : eventDateRaw e (prepare r) with
  | none => simp
  | some d =>
    cases hp : P d with
    | none =>
      cases hprov : (mkCase2 agef (prepare r)).match_string_province with
      | none => simp [hp]
      | some p =>
        cases hreg : (mkCase2 agef (prepare r)).match_string_region with
        | none => simp [hp]
        | some g => simp [hp]
    | some cd =>
      have hpar : parsesAfterImpute P e r = true := by
        rw [parsesAfterImpute_eq, hd]
        simp [hp]
      have hg := hgood hpar
      obtain ⟨p, hp2⟩ := Option.ne_none_iff_exists'.mp hg.1
      obtain ⟨g, hg2⟩ := Option.ne_none_iff_exists'.mp hg.2.1
      have hprov : (mkCase2 agef (prepare r)).match_string_province = some p := by
        show (prepare r).match_string_province = some p
        rw [(prepare_keeps_keys r).1, hp2]
      have hreg : (mkCase2 agef (prepare r)).match_string_region = some g := by
        show (prepare r).match_string_region = some g
        rw [(prepare_keeps_keys r).2.1, hg2]
      rw [hprov, hreg]
      simp [hp]

theorem countP_keys_eq (P : String → Option CalDate) (e : EventType)
    (agef : Option Nat → String) (t : List CaseRaw)
    (hgood : ∀ r ∈ t, parsesAfterImpute P e r = true → goodKeys r) :
    (t.map (fun r => mkCase2 agef (prepare r))).countP
        (fun c => match keyOf e c with | some k => (P k.date).isSome | none => false) =
      t.countP (parsesAfterImpute P e) := by
  rw [List.countP_map]
  refine List.countP_congr ?_
  intro r hr
  constructor
  · intro h
    have := pred_eq_parses P e agef r (hgood r hr)
    simp only [Function.comp] at h
    rw [← this]
    exact h
  · intro h
    have := pred_eq_parses P e agef r (hgood r hr)
    simp only [Function.comp]
    rw [this]
    exact h

theorem keyOf_some_facts {e : EventType} {c : Case2} {k : AggKey}
    (hk : keyOf e c = some k) :
    eventDate e c = some k.date ∧ c.match_string_province = some k.province ∧
      c.match_string_region = some k.region := by
  unfold keyOf at hk
  cases hd : eventDate e c with
  | none => rw [hd] at hk; exact absurd hk (by simp)
  | some d =>
    cases hp : c.match_string_province with
    | none => rw [hd, hp] at hk; exact absurd hk (by simp)
    | some p =>
      cases hr : c.match_string_region with
      | none => rw [hd, hp, hr] at hk; exact absurd hk (by simp)
      | some g =>
        rw [hd, hp, hr] at hk
        have hke := Option.some.inj hk
        subst hke
        exact ⟨rfl, rfl, rfl⟩

/-- A key realized in the aggregation whose row would be dropped by
one of the Repatriate filters has a zero count for every event whose
contributing rows all satisfy the good-key hypothesis. -/
theorem countKey_zero_of_bad (P : String → Option CalDate) (e : EventType)
    (agef : Option Nat → String) (t : List CaseRaw) (k : AggKey)
    (hgood : ∀ r ∈ t, parsesAfterImpute P e r = true → goodKeys r)
    (hPk : (P k.date).isSome = true)
    (hbad : k.province = repatriateStr ∨ splitLast k.region = repatriateStr) :
    countKey e k (t.map (fun r => mkCase2 agef (prepare r))) = 0 := by
  unfold countKey
  rw [List.countP_eq_zero]
  intro c hc
  simp only [decide_eq_true_eq]
  intro hk
  obtain ⟨r₀, hr₀, rfl⟩ := List.mem_map.mp hc
  obtain ⟨hd, hp, hg⟩ := keyOf_some_facts hk
  rw [eventDate_mkCase2] at hd
  have hpar : parsesAfterImpute P e r₀ = true := by
    rw [parsesAfterImpute_eq, hd]
    simpa using hPk
  have hgk := hgood r₀ hr₀ hpar
  have hp' : r₀.match_string_province = some k.province := by
    rw [← (prepare_keeps_keys r₀).1]
    exact hp
  have hg' : r₀.match_string_region = some k.region := by
    rw [← (prepare_keeps_keys r₀).2.1]
    exact hg
  rcases hbad with hb | hb
  · exact hgk.2.2.1 (by rw [hp', hb])
  · exact hgk.2.2.2 (by rw [hg']; simp [hb])

theorem sums_eq_counts (P : String → Option CalDate) (agef : Option Nat → String)
    (t : List CaseRaw) (cs : List Case2) (e : EventType)
    (hcs : cs = t.map (fun r => mkCase2 agef (prepare r)))
    (hgood : ∀ r ∈ t, parsesAfterImpute P e r = true → goodKeys r) :
    sumNew e (provRows (expand ((survKeys P cs).map (normRow P cs)))) =
        t.countP (parsesAfterImpute P e) ∧
      sumNew e (regRows (expand ((survKeys P cs).map (normRow P cs)))) =
        t.countP (parsesAfterImpute P e) := by
  subst hcs
  set cs := t.map (fun r => mkCase2 agef (prepare r)) with hcs
  have hnd : (survKeys P cs).Nodup := (dedupF_nodup _).filter _
  have hq : ∀ k ∈ survKeys P cs, (P k.date).isSome = true :=
    fun k hk => (List.mem_filter.mp hk).2
  have hcov : ∀ r ∈ cs, ∀ k, keyOf e r = some k → (P k.date).isSome = true →
      k ∈ survKeys P cs :=
    fun r hr k hk hqk => List.mem_filter.mpr ⟨keyOf_mem_aggKeys hr hk, hqk⟩
  have hpart := sum_countKey_eq e cs (survKeys P cs) (fun k => (P k.date).isSome) hnd hq hcov
  have hfinal := countP_keys_eq P e agef t hgood
  have hcong : ∀ k, ((fun a => (aggCount e a).getD 0) ∘ normRow P cs) k = countKey e k cs :=
    fun k => by simp [Function.comp, aggCount_normRow]
  constructor
  · rw [provRows_expand, List.filter_map, sumNew_map_l3, List.map_map,
      List.map_congr_left (fun k _ => hcong k)]
    have hzero : ∀ k ∈ survKeys P cs,
        ((fun a : AggRow => decide (a.match_string_province ≠ repatriateStr)) ∘
          normRow P cs) k = false → countKey e k cs = 0 := by
      intro k hk hfalse
      have hrep : k.province = repatriateStr := by
        have := of_decide_eq_false hfalse
        simpa [Function.comp, not_not] using this
      exact countKey_zero_of_bad P e agef t k hgood (hq k hk) (Or.inl hrep)
    rw [sum_filter_eq_sum _ _ _ hzero, hpart, hfinal]
  · rw [regRows_expand, List.filter_map, sumNew_map_l2, List.map_map,
      List.map_congr_left (fun k _ => hcong k)]
    have hzero : ∀ k ∈ survKeys P cs,
        ((fun a : AggRow => decide (splitLast a.match_string_region ≠ repatriateStr)) ∘
          normRow P cs) k = false → countKey e k cs = 0 := by
      intro k hk hfalse
      have hrep : splitLast k.region = repatriateStr := by
        have := of_decide_eq_false hfalse
        simpa [Function.comp, not_not] using this
      exact countKey_zero_of_bad P e agef t k hgood (hq k hk) (Or.inr hrep)
    rw [sum_filter_eq_sum _ _ _ hzero, hpart, hfinal]

/-- C1 (amended): count conservation holds under the key hypotheses
the filters force — for every input table, parser, age function and
event type, *provided* every case row whose imputed event date parses
has both grouping keys present, a province different from the
placeholder "Repatriate" and a region whose qualifier-stripped form is
different from the placeholder, the sum of `new_<event>` over the
province-level output rows equals the number of input rows with a
non-null, successfully parsed imputed event date, and the same holds
independently for the region-level rows.  Without those hypotheses the
claim is false (see the counterexample: a "Repatriate" row is dropped
from both copies and the counts are lost). -/
theorem C1_count_conservation (P : String → Option CalDate) (agef : Option Nat → String)
    (t : List CaseRaw) (out : List OutRow) (e : EventType)
    (hok : parse_dataframes P agef t = Except.ok out)
    (hgood : ∀ r ∈ t, parsesAfterImpute P e r = true → goodKeys r) :
    sumNew e (provRows out) = t.countP (parsesAfterImpute P e) ∧
      sumNew e (regRows out) = t.countP (parsesAfterImpute P e) := by
  unfold parse_dataframes at hok
  cases hpc : pipelineCases agef t with
  | error msg =>
    unfold aggregatedTable at hok
    rw [hpc] at hok
    exact absurd hok (by simp)
  | ok cs =>
    rw [aggregated_eq P agef t cs hpc] at hok
    have hout : expand ((survKeys P cs).map (normRow P cs)) = out := Except.ok.inj hok
    rw [← hout]
    exact sums_eq_counts P agef t cs e (pipelineCases_eq agef t cs hpc) hgood

theorem C1_witness :
    sumNew EventType.confirmed (provRows (okRows (parse_dataframes Pw agefW [scenRow]))) =
        List.countP (parsesAfterImpute Pw EventType.confirmed) [scenRow] ∧
      sumNew EventType.confirmed (regRows (okRows (parse_dataframes Pw agefW [scenRow]))) =
        List.countP (parsesAfterImpute Pw EventType.confirmed) [scenRow] :=
  C1_count_conservation Pw agefW [scenRow] (okRows (parse_dataframes Pw agefW [scenRow]))
    EventType.confirmed (by decide) (by decide)

/-- A case assigned to the "Repatriate" placeholder category in both
key columns, with a parseable confirmation date. -/
def repatRow : CaseRaw :=
  { scenRow with
    match_string_province := some repatriateStr
    match_string_region := some repatriateStr }

/-- C1 counterexample: on the single-row table `[repatRow]`, the
transform succeeds but returns no rows at all — both resolution copies
are dropped by the "Repatriate" filter — so the province-level and
region-level sums of `new_confirmed` are 0 while the number of input
rows with a parseable confirmation date is 1: the claim's equality
fails at this input for both resolutions. -/
theorem C1_counterexample :
    parse_dataframes Pw agefW [repatRow] = Except.ok [] ∧
      sumNew EventType.confirmed (provRows (okRows (parse_dataframes Pw agefW [repatRow]))) = 0 ∧
      sumNew EventType.confirmed (regRows (okRows (parse_dataframes Pw agefW [repatRow]))) = 0 ∧
      List.countP (parsesAfterImpute Pw EventType.confirmed) [repatRow] = 1 := by
  refine ⟨by decide, by decide, by decide, by decide⟩

theorem l2row_ne_l3row (b a : AggRow) : l3row b ≠ l2row a := by
  intro h
  have : (l3row b).subregion2_code = (l2row a).subregion2_code := congrArg OutRow.subregion2_code h
  simp [l2row, l3row, emptyStr] at this

theorem countP_expand_l2 (A : List AggRow) (a : AggRow)
    (hreg : splitLast a.match_string_region ≠ repatriateStr) :
    (expand A).countP (fun o => decide (o = l2row a)) =
      A.countP (fun b => decide (l2row b = l2row a)) := by
  rw [expand_split, List.countP_append, List.countP_filter, List.countP_filter,
    List.countP_map, List.countP_map]
  have hz : List.countP
      ((fun o => decide (o = l2row a) && decide (o.match_string ≠ some repatriateStr)) ∘ l3row)
      A = 0 := by
    rw [List.countP_eq_zero]
    intro b _
    simp only [Function.comp, Bool.and_eq_true, decide_eq_true_eq, not_and]
    intro h
    exact absurd h (l2row_ne_l3row b a)
  rw [hz, Nat.add_zero]
  refine List.countP_congr ?_
  intro b _
  simp only [Function.comp, Bool.and_eq_true, decide_eq_true_eq]
  constructor
  · intro h
    exact h.1
  · intro h
    refine ⟨h, ?_⟩
    rw [h]
    show some (splitLast a.match_string_region) ≠ some repatriateStr
    simpa using hreg

theorem countP_expand_l3 (A : List AggRow) (a : AggRow)
    (hprov : a.match_string_province ≠ repatriateStr) :
    (expand A).countP (fun o => decide (o = l3row a)) =
      A.countP (fun b => decide (l3row b = l3row a)) := by
  rw [expand_split, List.countP_append, List.countP_filter, List.countP_filter,
    List.countP_map, List.countP_map]
  have hz : List.countP
      ((fun o => decide (o = l3row a) && decide (o.match_string ≠ some repatriateStr)) ∘ l2row)
      A = 0 := by
    rw [List.countP_eq_zero]
    intro b _
    simp only [Function.comp, Bool.and_eq_true, decide_eq_true_eq, not_and]
    intro h
    exact absurd h.symm (l2row_ne_l3row a b)
  rw [hz, Nat.zero_add]
  refine List.countP_congr ?_
  intro b _
  simp only [Function.comp, Bool.and_eq_true, decide_eq_true_eq]
  constructor
  · intro h
    exact h.1
  · intro h
    refine ⟨h, ?_⟩
    rw [h]
    show some a.match_string_province ≠ some repatriateStr
    simpa using hprov

/-- C2 (amended): for each aggregated row whose province key and whose
qualifier-stripped region key differ from the placeholder, and which
is not duplicated at either resolution's image, the final table
contains exactly one region-level contribution (match string = the
region string after the last `": "` separator, `subregion2_code`
null) and exactly one province-level contribution (match string = the
province string as-is, `subregion2_code` empty string), concatenated
with no cross-copy deduplication.  A case with only the region known,
however, is excluded from the aggregation entirely and contributes to
*neither* series (see the counterexample), not only to the
region-level one as the claim states. -/
theorem C2_dual_resolution (P : String → Option CalDate) (agef : Option Nat → String)
    (t : List CaseRaw) (out : List OutRow) (A : List AggRow) (a : AggRow)
    (hok : parse_dataframes P agef t = Except.ok out)
    (hA : aggregatedTable P agef t = Except.ok A)
    (ha : a ∈ A)
    (hprov : a.match_string_province ≠ repatriateStr)
    (hreg : splitLast a.match_string_region ≠ repatriateStr)
    (hu2 : A.countP (fun b => decide (l2row b = l2row a)) = 1)
    (hu3 : A.countP (fun b => decide (l3row b = l3row a)) = 1) :
    out.countP (fun o => decide (o = l2row a)) = 1 ∧
      out.countP (fun o => decide (o = l3row a)) = 1 ∧
      (l2row a).subregion2_code = none ∧
      (l2row a).match_string = some (splitLast a.match_string_region) ∧
      (l3row a).subregion2_code = some emptyStr ∧
      (l3row a).match_string = some a.match_string_province := by
  have hout : expand A = out := by
    unfold parse_dataframes at hok
    rw [hA] at hok
    exact Except.ok.inj hok
  rw [← hout]
  exact ⟨(countP_expand_l2 A a hreg).trans hu2, (countP_expand_l3 A a hprov).trans hu3,
    rfl, rfl, rfl, rfl⟩

/-- The aggregated row that the spec scenario produces for the
confirmation/hospitalization date. -/
def wAggRow : AggRow :=
  { date := "2020-04-01"
    match_string_province := "Manila"
    match_string_region := "NCR: National Capital Region"
    age := "40-49"
    sex := "female"
    new_confirmed := some 1
    new_deceased := some 0
    new_recovered := some 0
    new_hospitalized := some 1 }

/-- The aggregated table the scenario produces. -/
def wAgg : List AggRow :=
  (aggregatedTable Pw agefW [scenRow]).toOption.getD []

theorem C2_witness :
    (okRows (parse_dataframes Pw agefW [scenRow])).countP
        (fun o => decide (o = l2row wAggRow)) = 1 ∧
      (okRows (parse_dataframes Pw agefW [scenRow])).countP
        (fun o => decide (o = l3row wAggRow)) = 1 ∧
      (l2row wAggRow).subregion2_code = none ∧
      (l2row wAggRow).match_string = some (splitLast wAggRow.match_string_region) ∧
      (l3row wAggRow).subregion2_code = some emptyStr ∧
      (l3row wAggRow).match_string = some wAggRow.match_string_province :=
  C2_dual_resolution Pw agefW [scenRow] (okRows (parse_dataframes Pw agefW [scenRow]))
    wAgg wAggRow (by decide) (by decide) (by decide) (by decide) (by decide)
    (by decide) (by decide)

/-- A case whose province is unknown but whose region is known. -/
def regionOnlyRow : CaseRaw :=
  { scenRow with match_string_province := none }

/-- C2 counterexample: a case with only the region known is dropped by
the aggregation's missing-key exclusion, so the returned table is
empty — in particular it contains *no* region-level row, refuting the
claim that such a case still contributes to the region-level
series. -/
theorem C2_counterexample :
    parse_dataframes Pw agefW [regionOnlyRow] = Except.ok [] ∧
      regRows (okRows (parse_dataframes Pw agefW [regionOnlyRow])) = [] ∧
      List.countP (parsesAfterImpute Pw EventType.confirmed) [regionOnlyRow] = 1 := by
  refine ⟨by decide, by decide, by decide⟩

theorem isoformat_length (cd : CalDate) : (isoformat cd).length = 10 := rfl

theorem isoformat_dashes (cd : CalDate) :
    (isoformat cd).data.get? 4 = some '-' ∧ (isoformat cd).data.get? 7 = some '-' :=
  ⟨rfl, rfl⟩

/-- C8: unparseable-date handling.  Whenever the per-row stage
succeeds (every sex present), the transform raises no error whatever
the dates are; every surviving row's date is the ISO-8601
`YYYY-MM-DD` rendering (ten characters, dashes at positions 4 and 7,
no time-of-day) of a calendar date successfully produced by the safe
parser; and when no date parses, the aggregated rows are dropped
entirely — the output is empty, with no zero rows. -/
theorem C8_unparseable_dates (P : String → Option CalDate) (agef : Option Nat → String)
    (t : List CaseRaw) (hsex : ∀ r ∈ t, r.sex ≠ none) :
    ∃ out, parse_dataframes P agef t = Except.ok out ∧
      (∀ o ∈ out, ∃ cd, (∃ s, P s = some cd) ∧ o.date = isoformat cd ∧
        o.date.length = 10 ∧ o.date.data.get? 4 = some '-' ∧ o.date.data.get? 7 = some '-') ∧
      ((∀ s, P s = none) → out = []) := by
  obtain ⟨cs, hpc⟩ := pipelineCases_ok agef t hsex
  have hagg := aggregated_eq P agef t cs hpc
  refine ⟨expand ((survKeys P cs).map (normRow P cs)), ?_, ?_, ?_⟩
  · unfold parse_dataframes
    rw [hagg]
  · intro o ho
    rcases mem_expand ho with ⟨a, haA, rfl⟩ | ⟨a, haA, rfl⟩ <;>
    · obtain ⟨k, hk, rfl⟩ := List.mem_map.mp haA
      have hks : (P k.date).isSome = true := (List.mem_filter.mp hk).2
      obtain ⟨cd, hcd⟩ := Option.isSome_iff_exists.mp hks
      have hdate : (normRow P cs k).date = isoformat cd := by
        unfold normRow
        rw [hcd]
        rfl
      refine ⟨cd, ⟨k.date, hcd⟩, ?_, ?_, ?_, ?_⟩ <;>
        first
          | (show (normRow P cs k).date = isoformat cd; exact hdate)
          | (show ((normRow P cs k).date).length = 10; rw [hdate]; rfl)
          | (show ((normRow P cs k).date).data.get? 4 = some '-'; rw [hdate]; rfl)
          | (show ((normRow P cs k).date).data.get? 7 = some '-'; rw [hdate]; rfl)
  · intro hnone
    have hsv : survKeys P cs = [] := by
      unfold survKeys
      rw [List.filter_eq_nil_iff]
      intro k _
      rw [hnone k.date]
      simp
    rw [hsv]
    rfl

/-- A table mixing one fully parseable case and one case whose
confirmation date does not parse. -/
def c8Table : List CaseRaw :=
  [scenRow,
   { scenRow with
     date_new_confirmed := some "not a date"
     prognosis := none
     date_estimate := none }]

theorem C8_witness :
    ∃ out, parse_dataframes Pw agefW c8Table = Except.ok out ∧
      (∀ o ∈ out, ∃ cd, (∃ s, Pw s = some cd) ∧ o.date = isoformat cd ∧
        o.date.length = 10 ∧ o.date.data.get? 4 = some '-' ∧ o.date.data.get? 7 = some '-') ∧
      ((∀ s, Pw s = none) → out = []) :=
  C8_unparseable_dates Pw agefW c8Table (by decide)
